import Mathlib

/-!
Verification development for the edlib test aligner (src/src/aligner.cpp).

The embedding models, faithfully to the C++ source:
  - the on-the-fly alphabet construction and fasta parsing of
    readFastaSequences (lines 288-334);
  - the threading of the alphabet state through both readFastaSequences
    calls in main (lines 131-150) and the unguarded access to the first
    target record (line 157);
  - the command-line validation phase of main (lines 59-113), including
    the C semantics of atoi for the -n and -k arguments;
  - the main query loop (lines 195-271), whose body ends in exit(0);
  - the per-operation behaviour of printAlignment (lines 350-375);
  - the scores of the two computation backends (the bounded edlib engine
    and the seqan reference path) in each of the three modes, as dynamic
    programs, with the engine's no-result outcome under a bound.

Characters are modelled as natural number codes (10 is the line feed,
13 the carriage return, 62 the character that opens a header record).
A file is an Option (List Nat): none models an unreadable path.
-/

namespace Aligner

/-! ### Alphabet state (aligner.cpp lines 117-124, 320-325) -/

/-- The four alphabet variables of main: letterIdx, idxToLetter, inAlphabet,
alphabetLength.  The two index arrays start uninitialized in the C++ source,
so the initial state below is parametric in their initial contents. -/
structure AlphabetState where
  letterIdx : Nat → Nat
  idxToLetter : Nat → Nat
  inAlphabet : Nat → Bool
  alphabetLength : Nat

def updNat (f : Nat → Nat) (i v : Nat) : Nat → Nat :=
  fun j => if j = i then v else f j

def updBool (f : Nat → Bool) (i : Nat) (v : Bool) : Nat → Bool :=
  fun j => if j = i then v else f j

/-- State after lines 118-124: inAlphabet is all false, alphabetLength is 0,
the two index arrays hold arbitrary garbage g1, g2. -/
def initAlphabet (g1 g2 : Nat → Nat) : AlphabetState :=
  { letterIdx := g1, idxToLetter := g2, inAlphabet := fun _ => false, alphabetLength := 0 }

/-- Lines 320-325: if c is not yet in the alphabet, record it with the next
free index and grow the alphabet. -/
def addLetter (a : AlphabetState) (c : Nat) : AlphabetState :=
  if a.inAlphabet c then a
  else
    { letterIdx := updNat a.letterIdx c a.alphabetLength
      idxToLetter := updNat a.idxToLetter a.alphabetLength c
      inAlphabet := updBool a.inAlphabet c true
      alphabetLength := a.alphabetLength + 1 }

/-! ### Fasta parsing (readFastaSequences, lines 288-334) -/

/-- Parser state of readFastaSequences: the alphabet (passed by reference),
the inHeader and inSequence flags, and the output list of encoded sequences. -/
structure FastaState where
  alpha : AlphabetState
  inHeader : Bool
  inSequence : Bool
  seqs : List (List Nat)

/-- Models seqs->back().push_back(x): append x to the last sequence.
On an empty list (never reached from the parser) it is the identity. -/
def pushToLast : List (List Nat) → Nat → List (List Nat)
  | [], _ => []
  | [s], x => [s ++ [x]]
  | s :: t :: rest, x => s :: pushToLast (t :: rest) x

/-- One character of the parsing loop, lines 302-327.  In a header, only a
line feed (10) ends the header; otherwise 62 opens a header, 13 and 10 are
skipped, and any other character starts a sequence if none is in progress,
is added to the alphabet if new, and its index is appended to the last
sequence. -/
def processChar (st : FastaState) (c : Nat) : FastaState :=
  if st.inHeader then
    if c = 10 then { st with inHeader := false } else st
  else if c = 62 then
    { st with inHeader := true, inSequence := false }
  else if c = 13 || c = 10 then
    st
  else
    let st1 := if st.inSequence then st
               else { st with inSequence := true, seqs := st.seqs ++ [[]] }
    let a2 := addLetter st1.alpha c
    { st1 with alpha := a2, seqs := pushToLast st1.seqs (a2.letterIdx c) }

def readFastaChars (st : FastaState) (chars : List Nat) : FastaState :=
  chars.foldl processChar st

/-- readFastaSequences (lines 288-334).  The file is none when fopen fails,
some chars otherwise; the chunked fread loop flattens to processing the
characters in order.  Returns (return code, parsed sequences, alphabet):
1 and untouched alphabet on open failure, 0 otherwise — the source has no
other error return. -/
def readFastaSequences (file : Option (List Nat)) (alpha : AlphabetState) :
    Nat × List (List Nat) × AlphabetState :=
  match file with
  | none => (1, [], alpha)
  | some chars =>
    let st := readFastaChars ⟨alpha, false, false, []⟩ chars
    (0, st.seqs, st.alpha)

def initFastaState (g1 g2 : Nat → Nat) : FastaState :=
  ⟨initAlphabet g1 g2, false, false, []⟩

/-- Bijectivity invariant of the alphabet: every recorded symbol has an
index below alphabetLength that maps back to it, and every assigned index
maps to a recorded symbol that maps back to that index. -/
def GoodAlpha (a : AlphabetState) : Prop :=
  (∀ c, a.inAlphabet c = true →
      a.letterIdx c < a.alphabetLength ∧ a.idxToLetter (a.letterIdx c) = c) ∧
  (∀ i, i < a.alphabetLength →
      a.inAlphabet (a.idxToLetter i) = true ∧ a.letterIdx (a.idxToLetter i) = i)

/-! ### A ghost parser recording raw characters instead of indices -/

/-- Same control structure as the parser state, without the alphabet. -/
structure RawState where
  inHeader : Bool
  inSequence : Bool
  seqs : List (List Nat)

/-- The parsing loop of processChar, but storing the raw character instead
of its alphabet index.  Used to state what the encoded output encodes. -/
def processCharRaw (st : RawState) (c : Nat) : RawState :=
  if st.inHeader then
    if c = 10 then { st with inHeader := false } else st
  else if c = 62 then
    { st with inHeader := true, inSequence := false }
  else if c = 13 || c = 10 then
    st
  else
    let st1 := if st.inSequence then st
               else { st with inSequence := true, seqs := st.seqs ++ [[]] }
    { st1 with seqs := pushToLast st1.seqs c }

def initRawState : RawState := ⟨false, false, []⟩

/-- The raw (unencoded) sequences of a character stream. -/
def rawSeqs (chars : List Nat) : List (List Nat) :=
  (chars.foldl processCharRaw initRawState).seqs

/-- Relation between the real parser state and the ghost raw state: same
control flags, every raw character already recorded in the alphabet, and
the encoded output is the raw output mapped through letterIdx. -/
def SyncInv (st : FastaState) (rw : RawState) : Prop :=
  st.inHeader = rw.inHeader ∧ st.inSequence = rw.inSequence ∧
  (∀ d ∈ rw.seqs.flatten, st.alpha.inAlphabet d = true) ∧
  st.seqs = rw.seqs.map (List.map st.alpha.letterIdx)

/-! ### main: loading both files, first target record (lines 131-158) -/

/-- Lines 131-150 of main: read the queries, then the target, threading one
alphabet state through both calls.  Returns (query sequences, target
sequences, final alphabet). -/
def mainLoad (g1 g2 : Nat → Nat) (Q T : List Nat) :
    List (List Nat) × List (List Nat) × AlphabetState :=
  let q := readFastaSequences (some Q) (initAlphabet g1 g2)
  let t := readFastaSequences (some T) q.2.2
  (q.2.1, t.2.1, t.2.2)

/-- Line 157: target = (*targetSequences)[0].  none models the out-of-bounds
access performed when the parsed list is empty; no emptiness check guards
the access in the source. -/
def mainTargetAccess (tseqs : List (List Nat)) : Option (List Nat) :=
  tseqs.head?

/-- Whether a character stream contains at least one sequence character,
i.e. one that the parser would append: outside a header and none of 62,
13, 10.  The Bool argument is the inHeader flag. -/
def hasSeqChar : List Nat → Bool → Bool
  | [], _ => false
  | c :: rest, true => if c = 10 then hasSeqChar rest false else hasSeqChar rest true
  | c :: rest, false =>
    if c = 62 then hasSeqChar rest true
    else if c = 13 || c = 10 then hasSeqChar rest false
    else true

/-! ### Command-line validation phase of main (lines 59-113) -/

def isDigit (c : Nat) : Bool := 48 ≤ c && c ≤ 57

def isSpace (c : Nat) : Bool := c = 32 || (9 ≤ c && c ≤ 13)

def digitsVal : List Nat → Int → Int
  | [], acc => acc
  | c :: rest, acc => if isDigit c then digitsVal rest (acc * 10 + ((c : Int) - 48)) else acc

/-- The C standard atoi used at lines 62-63 for the -n and -k arguments:
skip whitespace, take an optional sign, convert the longest digit run, and
return 0 when there are no digits.  It has no failure channel. -/
def atoi (s : List Nat) : Int :=
  match s.dropWhile isSpace with
  | 45 :: rest => - digitsVal rest 0
  | 43 :: rest => digitsVal rest 0
  | rest => digitsVal rest 0

/-- The option values after the getopt loop of lines 59-71: the mode and
format strings (copied by strcpy, defaults NW and NICE when absent) and the
raw texts of the -n and -k arguments when given. -/
structure CLIOptions where
  mode : String
  fmt : String
  nRaw : Option (List Nat)
  kRaw : Option (List Nat)

/-- Mode codes from edlib.h (not under src/); only their distinctness is
used here. -/
def EDLIB_MODE_NW : Nat := 0

def EDLIB_MODE_HW : Nat := 1

def EDLIB_MODE_SHW : Nat := 2

inductive EarlyResult where
  | configError (code : Nat)
  | proceed (numBestSeqs kVal : Int) (modeCode : Nat)
deriving DecidableEq

/-- The validation phase of main before any file is opened: lines 62-63
convert -n and -k with atoi (no error detection), lines 97-101 reject an
unknown alignment-format string, lines 103-113 reject an unknown mode
string; both rejections return 1. -/
def mainEarly (opts : CLIOptions) : EarlyResult :=
  let numBestSeqs := match opts.nRaw with | none => 0 | some s => atoi s
  let kVal := match opts.kRaw with | none => -1 | some s => atoi s
  if opts.fmt ≠ "NICE" ∧ opts.fmt ≠ "CIG_STD" ∧ opts.fmt ≠ "CIG_EXT" then
    EarlyResult.configError 1
  else if opts.mode = "SHW" then EarlyResult.proceed numBestSeqs kVal EDLIB_MODE_SHW
  else if opts.mode = "HW" then EarlyResult.proceed numBestSeqs kVal EDLIB_MODE_HW
  else if opts.mode = "NW" then EarlyResult.proceed numBestSeqs kVal EDLIB_MODE_NW
  else EarlyResult.configError 1

def isValidFormat (f : String) : Bool :=
  f = "NICE" || f = "CIG_STD" || f = "CIG_EXT"

def isValidMode (m : String) : Bool :=
  m = "SHW" || m = "HW" || m = "NW"

inductive RunOutcome where
  | earlyExit (code : Nat)
  | readPhase (loaded : Nat × List (List Nat) × AlphabetState)

/-- main up to and including the first readFastaSequences call: a config
error terminates the run before any sequence is read; otherwise the
queries file is read. -/
def mainRun (opts : CLIOptions) (qfile : Option (List Nat)) (g1 g2 : Nat → Nat) :
    RunOutcome :=
  match mainEarly opts with
  | EarlyResult.configError c => RunOutcome.earlyExit c
  | EarlyResult.proceed _ _ _ =>
    RunOutcome.readPhase (readFastaSequences qfile (initAlphabet g1 g2))

/-! ### The main query loop (lines 195-271) -/

/-- Cross-iteration state of the loop: the indices of the queries whose
distance has been computed, the scores written for them, and the contents
of the bestScores priority queue declared at line 186. -/
structure LoopState where
  processed : List Nat
  scores : List Int
  bestScores : List Int

inductive Flow where
  | next
  | exitWith (code : Nat)

/-- The loop body for query i, lines 196-270: fetch query i, compute its
score with the selected backend, print it and the cpu time, then
unconditionally call exit(0) at line 269.  No statement of the body reads
or writes bestScores. -/
def loopBody (score : Nat → Int) (i : Nat) (st : LoopState) : LoopState × Flow :=
  ({ st with processed := st.processed ++ [i], scores := st.scores ++ [score i] },
   Flow.exitWith 0)

/-- Runs a counted for loop whose body may exit the process: remaining
iterations, current index, state; returns the final state and the exit
code when the body exited. -/
def runFor (body : Nat → LoopState → LoopState × Flow) :
    Nat → Nat → LoopState → LoopState × Option Nat
  | 0, _, st => (st, none)
  | r + 1, i, st =>
    match body i st with
    | (st2, Flow.exitWith c) => (st2, some c)
    | (st2, Flow.next) => runFor body r (i + 1) st2

def initLoopState : LoopState := ⟨[], [], []⟩

/-- The loop of line 195: for (int i = 0; i < numQueries; i++) with the
body above. -/
def mainQueryLoop (score : Nat → Int) (numQueries : Nat) : LoopState × Option Nat :=
  runFor (loopBody score) numQueries 0 initLoopState

/-- The N smallest observed scores — the Best-Subset Selector contract, to
compare with the loop's actual bestScores state. -/
def nSmallest (N : Nat) (scores : List Int) : List Int :=
  (List.insertionSort (· ≤ ·) scores).take N

/-! ### printAlignment (lines 337-376) -/

/-- One output row of printAlignment: the target row (lines 354-361) is
renderRow with gap operation 1, the query row (lines 366-373) is renderRow
with gap operation 2.  For each alignment operation a gap cell (none) is
printed when the operation equals the row's gap operation; otherwise the
next symbol of the row's sequence is printed, modelling seq[++idx] with a
default for the raw C array read.  Returns the rendered cells and the
final index.  The 50-column chunking of the source only inserts line
breaks: tIdx and qIdx thread through chunks unchanged, so one pass over
the whole alignment is rendered. -/
def renderRow (gapOp : Nat) (seq : List Nat) : List Nat → Int → List (Option Nat) × Int
  | [], idx => ([], idx)
  | a :: rest, idx =>
    if a = gapOp then
      let r := renderRow gapOp seq rest idx
      (none :: r.1, r.2)
    else
      let r := renderRow gapOp seq rest (idx + 1)
      (some (seq.getD (idx + 1).toNat 0) :: r.1, r.2)

/-! ### The two scoring backends as dynamic programs, per mode and bound -/

/-- Modelled from the spec: the recurrence of the Distance Engine of
edlibCalcEditDistance, whose implementation is not under src/.  The spec
gives the classic unit-cost recurrence over a table with one row per
consumed query symbol: cell [i][j] is the minimum of the diagonal step
plus the match-or-mismatch cost, the up step plus 1, and the left step
plus 1, with column 0 equal to the row index.  The recurrence is shared by
all three modes; the modes differ only in row 0 and in which cells are
candidate optima (the Mode Policy of the spec).  nwRowAux builds the tail
of row i from row i-1: the first list is the remaining target, the second
the tail of the previous row starting at the diagonal cell, and w the cell
just written. -/
def nwRowAux (a : Nat) : List Nat → List Nat → Nat → List Nat
  | b :: t, p0 :: p1 :: prest, w =>
    (min (p0 + (if a = b then 0 else 1)) (min (p1 + 1) (w + 1)))
      :: nwRowAux a t (p1 :: prest) (min (p0 + (if a = b then 0 else 1)) (min (p1 + 1) (w + 1)))
  | _, _, _ => []

def nwRow (a : Nat) (t : List Nat) (prev : List Nat) : List Nat :=
  match prev with
  | [] => []
  | p :: _ => (p + 1) :: nwRowAux a t prev (p + 1)

/-- Row 0 for the anchored-start modes NW and SHW: cost j for consuming j
target symbols before the query begins. -/
def firstRow (t : List Nat) : List Nat := List.range (t.length + 1)

/-- Minimum of a DP row: the optimum over the candidate cells of the last
row in SHW and HW modes. -/
def rowMin : List Nat → Nat
  | [] => 0
  | [x] => x
  | x :: y :: rest => min x (rowMin (y :: rest))

/-- Modelled from the spec: row 0 of the distance table per Mode Policy —
zero cost across the whole first row for HW (the alignment may start at
any target offset), cost j for NW and SHW (anchored to the target's
start). -/
def modeFirstRow (modeCode : Nat) (t : List Nat) : List Nat :=
  if modeCode = EDLIB_MODE_HW then List.replicate (t.length + 1) 0 else firstRow t

/-- Modelled from the spec: the mode's edit distance — the DP run to the
last row, with the optimum in the bottom-right cell for NW (both ends
anchored) and the minimum over the last row for SHW and HW (the target
may extend past the match without penalty). -/
def modeDist (modeCode : Nat) (q t : List Nat) : Nat :=
  if modeCode = EDLIB_MODE_NW then
    ((q.foldl (fun row a => nwRow a t row) (modeFirstRow modeCode t)).getLast?).getD 0
  else rowMin (q.foldl (fun row a => nwRow a t row) (modeFirstRow modeCode t))

/-- Modelled from the spec: the bounded Distance Engine result, score or
no result.  A negative k encodes an absent bound, exactly as the
aligner's default kArg = -1 passed at line 187 does; with a bound k at
least 0 the result is the distance when it is within the bound, and the
no-result outcome (none) when it exceeds the bound. -/
def edlibResult (modeCode : Nat) (q t : List Nat) (k : Int) : Option Nat :=
  if 0 ≤ k ∧ k < (modeDist modeCode q t : Int) then none
  else some (modeDist modeCode q t)

/-- The integer the aligner prints for the edlib path (scores[i] at line
263): the distance, or the sentinel -1 that edlib writes into the score
slot on the no-result outcome. -/
def edlibPrintedScore (modeCode : Nat) (q t : List Nat) (k : Int) : Int :=
  match edlibResult modeCode q t k with
  | none => -1
  | some d => (d : Int)

/-- Negation of a natural number cast into the integers, relating the two
scoring tables. -/
def negOfNat (x : Nat) : Int := -(x : Int)

/-- The seqan reference path of the aligner (lines 210-254): seqan
computes an optimal alignment score, maximizing the similarity scheme the
source passes — match 0, mismatch -1, gap -1 (the seqan Score(0, -1, -1)
arguments; MyersBitVector and MyersHirschberg implement the same
unit-cost scheme).  The DP mirrors the distance table with max in place
of min. -/
def seqanRowAux (a : Nat) : List Nat → List Int → Int → List Int
  | b :: t, p0 :: p1 :: prest, w =>
    (max (p0 + (if a = b then 0 else -1)) (max (p1 - 1) (w - 1)))
      :: seqanRowAux a t (p1 :: prest) (max (p0 + (if a = b then 0 else -1)) (max (p1 - 1) (w - 1)))
  | _, _, _ => []

def seqanRow (a : Nat) (t : List Nat) (prev : List Int) : List Int :=
  match prev with
  | [] => []
  | p :: _ => (p - 1) :: seqanRowAux a t prev (p - 1)

def seqanFirstRow (t : List Nat) : List Int :=
  (List.range (t.length + 1)).map negOfNat

/-- Maximum of a similarity DP row. -/
def rowMax : List Int → Int
  | [] => 0
  | [x] => x
  | x :: y :: rest => max x (rowMax (y :: rest))

/-- Row 0 of the seqan reference DP per mode, from the AlignConfig the
source passes with the target as the horizontal sequence: for HW the top
flag of AlignConfig is true, freeing the whole first row (zero); for SHW
and NW the first row accrues gap cost -j. -/
def seqanModeFirstRow (modeCode : Nat) (t : List Nat) : List Int :=
  if modeCode = EDLIB_MODE_HW then List.replicate (t.length + 1) 0 else seqanFirstRow t

/-- The score the seqan reference path reports per mode: the bottom-right
cell for NW (plain global alignment), and — from the bottom flag of the
AlignConfig the source passes, with the target horizontal — the maximum
over the last row for SHW and HW (trailing target unpenalized). -/
def seqanModeScore (modeCode : Nat) (q t : List Nat) : Int :=
  if modeCode = EDLIB_MODE_NW then
    ((q.foldl (fun row a => seqanRow a t row) (seqanModeFirstRow modeCode t)).getLast?).getD 0
  else rowMax (q.foldl (fun row a => seqanRow a t row) (seqanModeFirstRow modeCode t))

end Aligner

namespace Aligner

/-! ### First theorems: basic facts used everywhere -/

theorem addLetter_inAlphabet_self (a : AlphabetState) (c : Nat) :
    (addLetter a c).inAlphabet c = true := by
  unfold addLetter
  by_cases h : a.inAlphabet c = true
  · simp [h]
  · simp only [Bool.not_eq_true] at h
    simp [h, updBool]

theorem addLetter_inAlphabet_mono (a : AlphabetState) (c d : Nat)
    (h : a.inAlphabet d = true) : (addLetter a c).inAlphabet d = true := by
  unfold addLetter
  by_cases hc : a.inAlphabet c = true
  · simp [hc, h]
  · simp only [Bool.not_eq_true] at hc
    simp only [hc, Bool.false_eq_true, if_false, updBool]
    by_cases hdc : d = c
    · simp [hdc]
    · simp [hdc, h]

theorem addLetter_letterIdx_stable (a : AlphabetState) (c d : Nat)
    (h : a.inAlphabet d = true) : (addLetter a c).letterIdx d = a.letterIdx d := by
  unfold addLetter
  by_cases hc : a.inAlphabet c = true
  · simp [hc]
  · simp only [Bool.not_eq_true] at hc
    have hdc : d ≠ c := by
      intro he; rw [he] at h; rw [h] at hc; exact Bool.true_eq_false.mp hc
    simp [hc, updNat, hdc]

theorem addLetter_fresh (a : AlphabetState) (c : Nat)
    (h : a.inAlphabet c = false) :
    (addLetter a c).letterIdx c = a.alphabetLength ∧
    (addLetter a c).idxToLetter a.alphabetLength = c := by
  unfold addLetter
  simp [h, updNat]

theorem addLetter_good (a : AlphabetState) (c : Nat) (hg : GoodAlpha a) :
    GoodAlpha (addLetter a c) := by
  obtain ⟨h1, h2⟩ := hg
  by_cases hc : a.inAlphabet c = true
  · unfold addLetter; simp only [hc, if_true]; exact ⟨h1, h2⟩
  · simp only [Bool.not_eq_true] at hc
    unfold addLetter
    simp only [hc, Bool.false_eq_true, if_false]
    constructor
    · intro d hd
      simp only [updBool] at hd
      by_cases hdc : d = c
      · subst hdc
        simp [updNat, Nat.lt_succ_self]
      · simp only [hdc, if_false] at hd
        have hlt := (h1 d hd).1
        have heq := (h1 d hd).2
        constructor
        · simp only [updNat, hdc, if_false]
          exact Nat.lt_succ_of_lt hlt
        · simp only [updNat, hdc, if_false]
          have hne : a.letterIdx d ≠ a.alphabetLength := Nat.ne_of_lt hlt
          simp [hne, heq]
    · intro i hi
      rcases Nat.lt_succ_iff_lt_or_eq.mp hi with hlt | heq
      · have hmem := h2 i hlt
        have hne : i ≠ a.alphabetLength := Nat.ne_of_lt hlt
        simp only [updNat, hne, if_false]
        have hdc : a.idxToLetter i ≠ c := by
          intro he
          rw [he] at hmem
          rw [hmem.1] at hc
          exact Bool.true_eq_false.mp hc
        constructor
        · simp [updBool, hdc, hmem.1]
        · simp [updNat, hdc, hmem.2]
      · subst heq
        simp [updNat, updBool]

end Aligner

namespace Aligner

/-! ### The alphabet along the parse: monotone, stable, well-formed -/

theorem processChar_alpha_cases (st : FastaState) (c : Nat) :
    (processChar st c).alpha = st.alpha ∨ (processChar st c).alpha = addLetter st.alpha c := by
  unfold processChar
  by_cases h1 : st.inHeader = true
  · by_cases h2 : c = 10 <;> simp [h1, h2]
  · simp only [Bool.not_eq_true] at h1
    by_cases h2 : c = 62
    · simp [h1, h2]
    · by_cases h3 : (c = 13 || c = 10) = true
      · simp [h1, h2, h3]
      · by_cases h4 : st.inSequence = true <;>
          simp [h1, h2, h3, h4]

theorem processChar_inAlphabet_mono (st : FastaState) (c d : Nat)
    (h : st.alpha.inAlphabet d = true) :
    (processChar st c).alpha.inAlphabet d = true := by
  rcases processChar_alpha_cases st c with he | he <;> rw [he]
  · exact h
  · exact addLetter_inAlphabet_mono _ _ _ h

theorem processChar_letterIdx_stable (st : FastaState) (c d : Nat)
    (h : st.alpha.inAlphabet d = true) :
    (processChar st c).alpha.letterIdx d = st.alpha.letterIdx d := by
  rcases processChar_alpha_cases st c with he | he <;> rw [he]
  · exact addLetter_letterIdx_stable _ _ _ h

theorem processChar_good (st : FastaState) (c : Nat) (hg : GoodAlpha st.alpha) :
    GoodAlpha (processChar st c).alpha := by
  rcases processChar_alpha_cases st c with he | he <;> rw [he]
  · exact hg
  · exact addLetter_good _ _ hg

theorem readFastaChars_inAlphabet_mono (chars : List Nat) :
    ∀ (st : FastaState) (d : Nat), st.alpha.inAlphabet d = true →
      (readFastaChars st chars).alpha.inAlphabet d = true := by
  induction chars with
  | nil => intro st d h; exact h
  | cons c rest ih =>
    intro st d h
    exact ih (processChar st c) d (processChar_inAlphabet_mono st c d h)

theorem readFastaChars_letterIdx_stable (chars : List Nat) :
    ∀ (st : FastaState) (d : Nat), st.alpha.inAlphabet d = true →
      (readFastaChars st chars).alpha.letterIdx d = st.alpha.letterIdx d := by
  induction chars with
  | nil => intro st d _; rfl
  | cons c rest ih =>
    intro st d h
    have h1 := processChar_inAlphabet_mono st c d h
    have h2 := processChar_letterIdx_stable st c d h
    calc (readFastaChars (processChar st c) rest).alpha.letterIdx d
        = (processChar st c).alpha.letterIdx d := ih (processChar st c) d h1
      _ = st.alpha.letterIdx d := h2

theorem readFastaChars_good (chars : List Nat) :
    ∀ (st : FastaState), GoodAlpha st.alpha →
      GoodAlpha (readFastaChars st chars).alpha := by
  induction chars with
  | nil => intro st h; exact h
  | cons c rest ih =>
    intro st h
    exact ih (processChar st c) (processChar_good st c h)

theorem initAlphabet_good (g1 g2 : Nat → Nat) : GoodAlpha (initAlphabet g1 g2) := by
  constructor
  · intro c hc; simp [initAlphabet] at hc
  · intro i hi; simp [initAlphabet] at hi

/-- Appending a sequence character while not in a header neither skips nor
reorders: the alphabet after the step is addLetter of the alphabet before. -/
theorem processChar_appends (st : FastaState) (c : Nat)
    (hHdr : st.inHeader = false) (h62 : c ≠ 62) (h13 : c ≠ 13) (h10 : c ≠ 10) :
    (processChar st c).alpha = addLetter st.alpha c := by
  unfold processChar
  have h3 : (c = 13 || c = 10) = false := by
    simp [h13, h10]
  by_cases h4 : st.inSequence = true <;>
    simp [hHdr, h62, h3, h4]

end Aligner

namespace Aligner

/-! ### pushToLast: structure lemmas -/

theorem pushToLast_map (f : Nat → Nat) :
    ∀ (l : List (List Nat)) (x : Nat),
      (pushToLast l x).map (List.map f) = pushToLast (l.map (List.map f)) (f x)
  | [], _ => rfl
  | [s], x => by simp [pushToLast]
  | s :: t :: rest, x => by
    simp only [pushToLast, List.map_cons]
    rw [pushToLast_map f (t :: rest) x]
    simp [pushToLast]

theorem pushToLast_flatten_mem :
    ∀ (l : List (List Nat)) (x d : Nat),
      d ∈ (pushToLast l x).flatten → d ∈ l.flatten ∨ d = x
  | [], _, _ => by intro h; simp [pushToLast] at h
  | [s], x, d => by
    intro h
    simp [pushToLast] at h
    rcases h with h | h
    · exact Or.inl (by simp [h])
    · exact Or.inr h
  | s :: t :: rest, x, d => by
    intro h
    simp only [pushToLast, List.flatten_cons, List.mem_append] at h
    rcases h with h | h
    · exact Or.inl (by simp [h])
    · rcases pushToLast_flatten_mem (t :: rest) x d (by simpa using h) with h2 | h2
      · exact Or.inl (by simp at h2 ⊢; tauto)
      · exact Or.inr h2

theorem pushToLast_append_nil :
    ∀ (l : List (List Nat)) (x : Nat), pushToLast (l ++ [[]]) x = l ++ [[x]]
  | [], _ => rfl
  | [s], _ => rfl
  | s :: t :: rest, x => by
    have ih := pushToLast_append_nil (t :: rest) x
    show s :: pushToLast ((t :: rest) ++ [[]]) x = s :: ((t :: rest) ++ [[x]])
    rw [ih]

theorem pushToLast_length :
    ∀ (l : List (List Nat)) (x : Nat), (pushToLast l x).length = l.length
  | [], _ => rfl
  | [s], _ => rfl
  | s :: t :: rest, x => by
    simp only [pushToLast, List.length_cons]
    rw [pushToLast_length (t :: rest) x]
    simp

theorem pushToLast_ne_nil_mem :
    ∀ (l : List (List Nat)) (x : Nat),
      (∀ s ∈ l, s ≠ []) → ∀ s ∈ pushToLast l x, s ≠ []
  | [], _ => by intro _ s hs; simp [pushToLast] at hs
  | [t], x => by
    intro _ s hs
    simp [pushToLast] at hs
    subst hs
    simp
  | s :: t :: rest, x => by
    intro h u hu
    simp only [pushToLast, List.mem_cons] at hu
    rcases hu with hu | hu
    · subst hu; exact h u (by simp)
    · exact pushToLast_ne_nil_mem (t :: rest) x
        (fun v hv => h v (by simp at hv ⊢; tauto)) u hu

end Aligner

namespace Aligner

/-! ### The encoded output is the raw output through letterIdx -/

theorem map_encode_congr (a : AlphabetState) (c : Nat) (l : List (List Nat))
    (hMem : ∀ d ∈ l.flatten, a.inAlphabet d = true) :
    l.map (List.map (addLetter a c).letterIdx) = l.map (List.map a.letterIdx) := by
  apply List.map_congr_left
  intro s hs
  apply List.map_congr_left
  intro d hd
  exact addLetter_letterIdx_stable _ _ _ (hMem d (List.mem_flatten.mpr ⟨s, hs, hd⟩))

theorem processChar_sync (st : FastaState) (rw : RawState) (c : Nat)
    (h : SyncInv st rw) : SyncInv (processChar st c) (processCharRaw rw c) := by
  obtain ⟨hH, hS, hMem, hSeqs⟩ := h
  by_cases h1 : st.inHeader = true
  · have h1r : rw.inHeader = true := hH ▸ h1
    by_cases h2 : c = 10
    · simp only [processChar, processCharRaw, h1, h1r, h2, if_true]
      exact ⟨rfl, hS, hMem, hSeqs⟩
    · simp only [processChar, processCharRaw, h1, h1r, h2, if_true, if_false]
      exact ⟨hH, hS, hMem, hSeqs⟩
  · have h1f : st.inHeader = false := by simpa using h1
    have h1r : rw.inHeader = false := hH ▸ h1f
    by_cases h2 : c = 62
    · simp only [processChar, processCharRaw, h1f, h1r, h2, Bool.false_eq_true,
        if_false, if_true]
      exact ⟨rfl, rfl, hMem, hSeqs⟩
    · by_cases h3 : (c = 13 || c = 10) = true
      · simp only [processChar, processCharRaw, h1f, h1r, h2, h3,
          Bool.false_eq_true, if_false, if_true]
        exact ⟨hH, hS, hMem, hSeqs⟩
      · have h3f : (c = 13 || c = 10) = false := by simpa using h3
        by_cases h4 : st.inSequence = true
        · have h4r : rw.inSequence = true := hS ▸ h4
          simp only [processChar, processCharRaw, h1f, h1r, h2, h3f, h4, h4r,
            Bool.false_eq_true, if_false, if_true]
          refine ⟨rfl, rfl, ?_, ?_⟩
          · intro d hd
            rcases pushToLast_flatten_mem rw.seqs c d hd with hd2 | hd2
            · exact addLetter_inAlphabet_mono _ _ _ (hMem d hd2)
            · subst hd2; exact addLetter_inAlphabet_self _ _
          · rw [pushToLast_map, map_encode_congr st.alpha c rw.seqs hMem, ← hSeqs]
        · have h4f : st.inSequence = false := by simpa using h4
          have h4r : rw.inSequence = false := hS ▸ h4f
          simp only [processChar, processCharRaw, h1f, h1r, h2, h3f, h4f, h4r,
            Bool.false_eq_true, if_false, if_true]
          refine ⟨rfl, rfl, ?_, ?_⟩
          · intro d hd
            rw [pushToLast_append_nil] at hd
            simp only [List.flatten_append, List.flatten_cons, List.flatten_nil,
              List.append_nil, List.mem_append, List.mem_singleton] at hd
            rcases hd with hd2 | hd2
            · exact addLetter_inAlphabet_mono _ _ _ (hMem d hd2)
            · subst hd2; exact addLetter_inAlphabet_self _ _
          · rw [pushToLast_append_nil, pushToLast_append_nil, List.map_append,
              map_encode_congr st.alpha c rw.seqs hMem, ← hSeqs]
            rfl

theorem readFastaChars_sync (chars : List Nat) :
    ∀ (st : FastaState) (rw : RawState), SyncInv st rw →
      SyncInv (readFastaChars st chars) (chars.foldl processCharRaw rw) := by
  induction chars with
  | nil => intro st rw h; exact h
  | cons c rest ih =>
    intro st rw h
    exact ih (processChar st c) (processCharRaw rw c) (processChar_sync st rw c h)

end Aligner

namespace Aligner

theorem readFastaChars_append (st : FastaState) (l1 l2 : List Nat) :
    readFastaChars st (l1 ++ l2) = readFastaChars (readFastaChars st l1) l2 := by
  simp [readFastaChars, List.foldl_append]

/-- Claim C6: the alphabet state is threaded through both readFastaSequences
calls of main, so the query encodings and the target encoding are the very
same letterIdx function (the one of the final shared alphabet) applied to
the raw parsed characters: a character appearing in both files has an
identical index in both encoded outputs. -/
theorem C6_shared_alphabet_encoding (g1 g2 : Nat → Nat) (Q T : List Nat) :
    (mainLoad g1 g2 Q T).1 =
      (rawSeqs Q).map (List.map (mainLoad g1 g2 Q T).2.2.letterIdx) ∧
    (mainLoad g1 g2 Q T).2.1 =
      (rawSeqs T).map (List.map (mainLoad g1 g2 Q T).2.2.letterIdx) := by
  have hQ := readFastaChars_sync Q (initFastaState g1 g2) initRawState
    ⟨rfl, rfl, by intro d hd; simp [initRawState] at hd, rfl⟩
  obtain ⟨_, _, hQmem, hQseqs⟩ := hQ
  have hT := readFastaChars_sync T
    ⟨(readFastaChars (initFastaState g1 g2) Q).alpha, false, false, []⟩ initRawState
    ⟨rfl, rfl, by intro d hd; simp [initRawState] at hd, rfl⟩
  obtain ⟨_, _, hTmem, hTseqs⟩ := hT
  constructor
  · show (readFastaChars (initFastaState g1 g2) Q).seqs = _
    rw [hQseqs]
    apply List.map_congr_left
    intro s hs
    apply List.map_congr_left
    intro d hd
    exact (readFastaChars_letterIdx_stable T
      ⟨(readFastaChars (initFastaState g1 g2) Q).alpha, false, false, []⟩ d
      (hQmem d (List.mem_flatten.mpr ⟨s, hs, hd⟩))).symm
  · exact hTseqs

/-- Claim C3: within one run the alphabet mapping is bijective between
observed symbols and assigned indices and stable once assigned.  If, after
a prefix of the input, the parser is outside a header and meets a character
c not yet in the alphabet (and c is not the header opener 62 nor a line
break 13 or 10), then c receives the current alphabetLength as its index,
idxToLetter of that index is c, both survive unchanged through the rest of
the run, and the final alphabet satisfies the bijection invariant. -/
theorem C3_alphabet_first_seen_bijective_stable (g1 g2 : Nat → Nat)
    (pre suf : List Nat) (c : Nat)
    (hHdr : (readFastaChars (initFastaState g1 g2) pre).inHeader = false)
    (hNew : (readFastaChars (initFastaState g1 g2) pre).alpha.inAlphabet c = false)
    (h62 : c ≠ 62) (h13 : c ≠ 13) (h10 : c ≠ 10) :
    (readFastaChars (initFastaState g1 g2) (pre ++ [c])).alpha.letterIdx c
        = (readFastaChars (initFastaState g1 g2) pre).alpha.alphabetLength ∧
    (readFastaChars (initFastaState g1 g2) (pre ++ [c])).alpha.idxToLetter
        ((readFastaChars (initFastaState g1 g2) (pre ++ [c])).alpha.letterIdx c) = c ∧
    (readFastaChars (initFastaState g1 g2) (pre ++ [c] ++ suf)).alpha.letterIdx c
        = (readFastaChars (initFastaState g1 g2) (pre ++ [c])).alpha.letterIdx c ∧
    (readFastaChars (initFastaState g1 g2) (pre ++ [c] ++ suf)).alpha.idxToLetter
        ((readFastaChars (initFastaState g1 g2) (pre ++ [c] ++ suf)).alpha.letterIdx c)
        = c ∧
    GoodAlpha (readFastaChars (initFastaState g1 g2) (pre ++ [c] ++ suf)).alpha := by
  have hstep : readFastaChars (initFastaState g1 g2) (pre ++ [c])
      = processChar (readFastaChars (initFastaState g1 g2) pre) c := by
    rw [readFastaChars_append]
    rfl
  have halpha : (readFastaChars (initFastaState g1 g2) (pre ++ [c])).alpha
      = addLetter (readFastaChars (initFastaState g1 g2) pre).alpha c := by
    rw [hstep]
    exact processChar_appends _ c hHdr h62 h13 h10
  have hfresh := addLetter_fresh (readFastaChars (initFastaState g1 g2) pre).alpha c hNew
  have hIn1 : (readFastaChars (initFastaState g1 g2) (pre ++ [c])).alpha.inAlphabet c
      = true := by
    rw [halpha]; exact addLetter_inAlphabet_self _ _
  have hsuf : readFastaChars (initFastaState g1 g2) (pre ++ [c] ++ suf)
      = readFastaChars (readFastaChars (initFastaState g1 g2) (pre ++ [c])) suf := by
    rw [readFastaChars_append]
  have hstable : (readFastaChars (initFastaState g1 g2) (pre ++ [c] ++ suf)).alpha.letterIdx c
      = (readFastaChars (initFastaState g1 g2) (pre ++ [c])).alpha.letterIdx c := by
    rw [hsuf]
    exact readFastaChars_letterIdx_stable suf _ c hIn1
  have hInF : (readFastaChars (initFastaState g1 g2) (pre ++ [c] ++ suf)).alpha.inAlphabet c
      = true := by
    rw [hsuf]
    exact readFastaChars_inAlphabet_mono suf _ c hIn1
  have hgoodF : GoodAlpha (readFastaChars (initFastaState g1 g2) (pre ++ [c] ++ suf)).alpha :=
    readFastaChars_good _ _ (initAlphabet_good g1 g2)
  refine ⟨?_, ?_, hstable, ?_, hgoodF⟩
  · rw [halpha]; exact hfresh.1
  · rw [halpha, hfresh.1]; exact hfresh.2
  · exact (hgoodF.1 c hInF).2

/-- Witness for C3 at a concrete input: after reading the single character
65 the parser is outside a header and 66 is not yet in the alphabet, and
the conclusion of the claim theorem holds for pre = [65], c = 66,
suf = [65]. -/
theorem C3_witness :
    ((readFastaChars (initFastaState (fun _ => 0) (fun _ => 0)) [65]).inHeader = false) ∧
    ((readFastaChars (initFastaState (fun _ => 0) (fun _ => 0)) [65]).alpha.inAlphabet 66
      = false) ∧
    ((readFastaChars (initFastaState (fun _ => 0) (fun _ => 0)) ([65] ++ [66])).alpha.letterIdx 66
        = (readFastaChars (initFastaState (fun _ => 0) (fun _ => 0)) [65]).alpha.alphabetLength ∧
    (readFastaChars (initFastaState (fun _ => 0) (fun _ => 0)) ([65] ++ [66])).alpha.idxToLetter
        ((readFastaChars (initFastaState (fun _ => 0) (fun _ => 0)) ([65] ++ [66])).alpha.letterIdx 66)
        = 66 ∧
    (readFastaChars (initFastaState (fun _ => 0) (fun _ => 0)) ([65] ++ [66] ++ [65])).alpha.letterIdx 66
        = (readFastaChars (initFastaState (fun _ => 0) (fun _ => 0)) ([65] ++ [66])).alpha.letterIdx 66 ∧
    (readFastaChars (initFastaState (fun _ => 0) (fun _ => 0)) ([65] ++ [66] ++ [65])).alpha.idxToLetter
        ((readFastaChars (initFastaState (fun _ => 0) (fun _ => 0)) ([65] ++ [66] ++ [65])).alpha.letterIdx 66)
        = 66 ∧
    GoodAlpha (readFastaChars (initFastaState (fun _ => 0) (fun _ => 0)) ([65] ++ [66] ++ [65])).alpha) :=
  ⟨rfl, rfl,
    C3_alphabet_first_seen_bijective_stable (fun _ => 0) (fun _ => 0) [65] [65] 66
      rfl rfl (by decide) (by decide) (by decide)⟩

end Aligner

namespace Aligner

/-! ### Non-emptiness of parsed sequences; emptiness of the whole output -/

theorem processChar_ne_nil (st : FastaState) (c : Nat)
    (h : ∀ s ∈ st.seqs, s ≠ []) : ∀ s ∈ (processChar st c).seqs, s ≠ [] := by
  unfold processChar
  by_cases h1 : st.inHeader = true
  · by_cases h2 : c = 10 <;> simp only [h1, h2, if_true, if_false] <;> exact h
  · have h1f : st.inHeader = false := by simpa using h1
    by_cases h2 : c = 62
    · simp only [h1f, h2, Bool.false_eq_true, if_false, if_true]
      exact h
    · by_cases h3 : (c = 13 || c = 10) = true
      · simp only [h1f, h2, h3, Bool.false_eq_true, if_false, if_true]
        exact h
      · have h3f : (c = 13 || c = 10) = false := by simpa using h3
        by_cases h4 : st.inSequence = true
        · simp only [h1f, h2, h3f, h4, Bool.false_eq_true, if_false, if_true]
          exact pushToLast_ne_nil_mem st.seqs _ h
        · have h4f : st.inSequence = false := by simpa using h4
          simp only [h1f, h2, h3f, h4f, Bool.false_eq_true, if_false, if_true]
          rw [pushToLast_append_nil]
          intro s hs
          rcases List.mem_append.mp hs with hs2 | hs2
          · exact h s hs2
          · rw [List.mem_singleton] at hs2
            subst hs2
            simp

theorem readFastaChars_ne_nil (chars : List Nat) :
    ∀ (st : FastaState), (∀ s ∈ st.seqs, s ≠ []) →
      ∀ s ∈ (readFastaChars st chars).seqs, s ≠ [] := by
  induction chars with
  | nil => intro st h; exact h
  | cons c rest ih =>
    intro st h
    exact ih (processChar st c) (processChar_ne_nil st c h)

/-- Claim C9: every sequence returned by readFastaSequences is non-empty —
a sequence vector is created only when its first character arrives, and
that character's index is appended in the same step. -/
theorem C9_parsed_sequences_nonempty (alpha : AlphabetState) (chars : List Nat) :
    ((readFastaSequences (some chars) alpha).2.1.all fun s => !s.isEmpty) = true := by
  rw [List.all_eq_true]
  intro s hs
  have h := readFastaChars_ne_nil chars ⟨alpha, false, false, []⟩
    (by intro u hu; simp at hu) s hs
  simpa using h

/-! ### Emptiness of the parsed output, for the unguarded target access -/

theorem processChar_inSequence_ne_nil (st : FastaState) (c : Nat)
    (h : st.inSequence = true → st.seqs ≠ []) :
    (processChar st c).inSequence = true → (processChar st c).seqs ≠ [] := by
  unfold processChar
  by_cases h1 : st.inHeader = true
  · by_cases h2 : c = 10 <;> simp only [h1, h2, if_true, if_false] <;> exact h
  · have h1f : st.inHeader = false := by simpa using h1
    by_cases h2 : c = 62
    · simp only [h1f, h2, Bool.false_eq_true, if_false, if_true]
      intro hfalse
      simp at hfalse
    · by_cases h3 : (c = 13 || c = 10) = true
      · simp only [h1f, h2, h3, Bool.false_eq_true, if_false, if_true]
        exact h
      · have h3f : (c = 13 || c = 10) = false := by simpa using h3
        by_cases h4 : st.inSequence = true
        · simp only [h1f, h2, h3f, h4, Bool.false_eq_true, if_false, if_true]
          intro _
          have hlen : (pushToLast st.seqs ((addLetter st.alpha c).letterIdx c)).length
              = st.seqs.length := pushToLast_length _ _
          intro hnil
          rw [hnil] at hlen
          exact (h h4) (List.eq_nil_of_length_eq_zero hlen.symm)
        · have h4f : st.inSequence = false := by simpa using h4
          simp only [h1f, h2, h3f, h4f, Bool.false_eq_true, if_false, if_true]
          intro _
          rw [pushToLast_append_nil]
          simp

theorem readFastaChars_seqs_empty (chars : List Nat) :
    ∀ (st : FastaState), (st.inSequence = true → st.seqs ≠ []) →
      ((readFastaChars st chars).seqs = [] ↔
        (st.seqs = [] ∧ hasSeqChar chars st.inHeader = false)) := by
  induction chars with
  | nil =>
    intro st _
    simp [readFastaChars, hasSeqChar]
  | cons c rest ih =>
    intro st hinv
    have hstep : readFastaChars st (c :: rest) = readFastaChars (processChar st c) rest := rfl
    rw [hstep, ih (processChar st c) (processChar_inSequence_ne_nil st c hinv)]
    unfold processChar
    by_cases h1 : st.inHeader = true
    · by_cases h2 : c = 10
      · simp [h1, h2, hasSeqChar]
      · simp [h1, h2, hasSeqChar]
    · have h1f : st.inHeader = false := by simpa using h1
      by_cases h2 : c = 62
      · simp [h1f, h2, hasSeqChar]
      · by_cases h3 : (c = 13 || c = 10) = true
        · rcases Bool.or_eq_true_iff.mp h3 with h13 | h10
          · have hc : c = 13 := by simpa using h13
            simp [h1f, h2, h3, hasSeqChar, hc]
          · have hc : c = 10 := by simpa using h10
            simp [h1f, h2, hasSeqChar, hc]
        · have h3f : (c = 13 || c = 10) = false := by simpa using h3
          have h13 : ¬ c = 13 := by
            intro hc; rw [hc] at h3f; simp at h3f
          have h10 : ¬ c = 10 := by
            intro hc; rw [hc] at h3f; simp at h3f
          by_cases h4 : st.inSequence = true
          · have hne : pushToLast st.seqs ((addLetter st.alpha c).letterIdx c) ≠ [] := by
              intro hnil
              have hlen := pushToLast_length st.seqs ((addLetter st.alpha c).letterIdx c)
              rw [hnil] at hlen
              exact (hinv h4) (List.eq_nil_of_length_eq_zero hlen.symm)
            simp [h1f, h2, h3f, h4, hasSeqChar, h13, h10, hne]
          · have h4f : st.inSequence = false := by simpa using h4
            have hne : pushToLast (st.seqs ++ [[]]) ((addLetter st.alpha c).letterIdx c) ≠ [] := by
              rw [pushToLast_append_nil]
              simp
            simp [h1f, h2, h3f, h4f, hasSeqChar, h13, h10, hne]

/-- Claim C10: main indexes element 0 of the loaded target-sequence list
with no emptiness check; the access is in bounds exactly when the target
file contains at least one sequence character (one outside headers that is
not 62, 13 or 10). -/
theorem C10_first_target_record_access (alpha : AlphabetState) (chars : List Nat) :
    (mainTargetAccess (readFastaSequences (some chars) alpha).2.1).isSome
      = hasSeqChar chars false := by
  have h := readFastaChars_seqs_empty chars ⟨alpha, false, false, []⟩ (by intro hfalse; simp at hfalse)
  simp only [readFastaSequences, mainTargetAccess]
  cases hempty : (readFastaChars ⟨alpha, false, false, []⟩ chars).seqs with
  | nil =>
    have := (h.mp hempty).2
    simp [this]
  | cons s rest =>
    have hne : hasSeqChar chars false = true := by
      by_cases hx : hasSeqChar chars false = true
      · exact hx
      · have hx2 : hasSeqChar chars false = false := by simpa using hx
        have := h.mpr ⟨rfl, hx2⟩
        rw [hempty] at this
        simp at this
    simp [hne]

/-- Claim C4 counterexample: a readable file from which zero sequences are
parsed makes readFastaSequences return 0 (success) with an empty list, not
an error — refuting the claim that load fails exactly when the file is
missing or empty. -/
theorem C4_empty_file_counterexample :
    (readFastaSequences (some []) (initAlphabet (fun _ => 0) (fun _ => 0))).1 = 0 ∧
    (readFastaSequences (some []) (initAlphabet (fun _ => 0) (fun _ => 0))).2.1 = [] :=
  ⟨rfl, rfl⟩

/-- Claim C4 as amended: readFastaSequences returns a nonzero code exactly
when the file cannot be opened; a readable file with no parsed sequences
returns success with an empty sequence list. -/
theorem C4_error_iff_unreadable (file : Option (List Nat)) (alpha : AlphabetState) :
    (readFastaSequences file alpha).1 ≠ 0 ↔ file = none := by
  cases file <;> simp [readFastaSequences]

end Aligner

namespace Aligner

/-! ### Command-line validation: what is and is not detected -/

/-- Claim C5 counterexample: with valid mode NW and valid format NICE but
the malformed -k argument "abc" (characters 97 98 99), the program does
not terminate with a failure: atoi converts the argument to 0 with no
error and the run proceeds (toward reading sequences) with k = 0. -/
theorem C5_malformed_numeric_not_detected :
    mainEarly ⟨"NW", "NICE", none, some [97, 98, 99]⟩
      = EarlyResult.proceed 0 0 EDLIB_MODE_NW := by
  decide

/-- Claim C5 as amended: the run terminates with exit code 1 before reading
any sequence exactly when the alignment-format string or the mode string is
invalid; a malformed numeric -n or -k argument never causes an early exit,
since atoi turns it into a number. -/
theorem C5_config_error_iff_bad_mode_or_format (opts : CLIOptions)
    (qfile : Option (List Nat)) (g1 g2 : Nat → Nat) :
    mainRun opts qfile g1 g2 = RunOutcome.earlyExit 1
      ↔ (isValidFormat opts.fmt = false ∨ isValidMode opts.mode = false) := by
  unfold mainRun mainEarly isValidFormat isValidMode
  by_cases hf1 : opts.fmt = "NICE" <;> by_cases hf2 : opts.fmt = "CIG_STD" <;>
    by_cases hf3 : opts.fmt = "CIG_EXT" <;>
    by_cases hm1 : opts.mode = "SHW" <;> by_cases hm2 : opts.mode = "HW" <;>
    by_cases hm3 : opts.mode = "NW" <;>
    simp [hf1, hf2, hf3, hm1, hm2, hm3]

/-! ### The main query loop exits inside its first iteration -/

/-- Claim C1 (code bug): whenever there is at least one query, the
unconditional exit(0) at the end of the loop body (line 269) terminates
the process after the first iteration: exactly query 0 is processed, and
queries 1 .. numQueries-1 are never reached. -/
theorem C1_loop_exits_after_first_query (score : Nat → Int) (n : Nat) (h : 0 < n) :
    (mainQueryLoop score n).1.processed = [0] ∧ (mainQueryLoop score n).2 = some 0 := by
  cases n with
  | zero => exact absurd h (lt_irrefl 0)
  | succ m => exact ⟨rfl, rfl⟩

/-- Witness for C1 with two queries: only query 0 is processed and the
process exits with code 0. -/
theorem C1_witness :
    0 < 2 ∧ ((mainQueryLoop (fun _ => 0) 2).1.processed = [0] ∧
      (mainQueryLoop (fun _ => 0) 2).2 = some 0) :=
  ⟨by decide, C1_loop_exits_after_first_query (fun _ => 0) 2 (by decide)⟩

/-- Claim C2 (code bug): no statement of the loop ever pushes onto the
bestScores priority queue, so after any run its contents are empty — in
particular not the three smallest scores 1, 2, 3 of the observed scores
5, 3, 8, 1, 9, 2 with N = 3 that the Best-Subset Selector contract
requires. -/
theorem C2_best_scores_never_populated (score : Nat → Int) (n : Nat) :
    (mainQueryLoop score n).1.bestScores = [] ∧
    nSmallest 3 [5, 3, 8, 1, 9, 2] = [1, 2, 3] ∧
    ([] : List Int) ≠ [1, 2, 3] := by
  refine ⟨?_, by decide, by decide⟩
  cases n with
  | zero => rfl
  | succ m => rfl

/-! ### printAlignment: gaps and index advancement per operation -/

theorem renderRow_cells_and_idx (g : Nat) (seq : List Nat) :
    ∀ (al : List Nat) (i0 : Int),
      ((renderRow g seq al i0).1.map Option.isSome
          = al.map (fun a => decide (a ≠ g))) ∧
      (renderRow g seq al i0).2
          = i0 + ((al.filter (fun a => decide (a ≠ g))).length : Int) := by
  intro al
  induction al with
  | nil => intro i0; simp [renderRow]
  | cons a rest ih =>
    intro i0
    by_cases h : a = g
    · refine ⟨?_, ?_⟩
      · simp [renderRow, h, (ih i0).1]
      · simp [renderRow, h, (ih i0).2]
    · refine ⟨?_, ?_⟩
      · simp [renderRow, h, (ih (i0 + 1)).1]
      · simp only [renderRow, if_neg h]
        rw [(ih (i0 + 1)).2]
        have hd : decide (a ≠ g) = true := by simp [h]
        simp only [List.filter_cons, hd, if_true, List.length_cons]
        push_cast
        ring

/-- Claim C8: in the target row of printAlignment (gap operation 1) exactly
the operations equal to 1 render a gap and the target index advances once
per other operation; in the query row (gap operation 2) exactly the
operations equal to 2 render a gap and the query index advances once per
other operation.  Hence the rendering consumes exactly as many target
symbols as operations different from 1 and as many query symbols as
operations different from 2, from any starting indices. -/
theorem C8_printAlignment_op_semantics (query target alignment : List Nat)
    (i0 j0 : Int) :
    ((renderRow 1 target alignment i0).1.map Option.isSome
        = alignment.map (fun a => decide (a ≠ 1))) ∧
    ((renderRow 2 query alignment j0).1.map Option.isSome
        = alignment.map (fun a => decide (a ≠ 2))) ∧
    (renderRow 1 target alignment i0).2
        = i0 + ((alignment.filter (fun a => decide (a ≠ 1))).length : Int) ∧
    (renderRow 2 query alignment j0).2
        = j0 + ((alignment.filter (fun a => decide (a ≠ 2))).length : Int) :=
  ⟨(renderRow_cells_and_idx 1 target alignment i0).1,
   (renderRow_cells_and_idx 2 query alignment j0).1,
   (renderRow_cells_and_idx 1 target alignment i0).2,
   (renderRow_cells_and_idx 2 query alignment j0).2⟩

end Aligner

namespace Aligner

/-! ### The seqan reference score is the negated edlib score (NW mode) -/

theorem seqanRowAux_neg (a : Nat) :
    ∀ (t : List Nat) (prev : List Nat) (w : Nat),
      seqanRowAux a t (prev.map negOfNat) (negOfNat w)
        = (nwRowAux a t prev w).map negOfNat := by
  intro t
  induction t with
  | nil =>
    intro prev w
    cases prev with
    | nil => rfl
    | cons p ps => cases ps <;> rfl
  | cons b t2 ih =>
    intro prev w
    cases prev with
    | nil => rfl
    | cons p0 ps =>
      cases ps with
      | nil => rfl
      | cons p1 prest =>
        have hhead : max (negOfNat p0 + (if a = b then 0 else -1))
            (max (negOfNat p1 - 1) (negOfNat w - 1))
            = negOfNat (min (p0 + (if a = b then 0 else 1)) (min (p1 + 1) (w + 1))) := by
          unfold negOfNat
          by_cases hab : a = b <;> simp only [hab, if_true, if_neg, reduceIte] <;>
            push_cast <;> omega
        simp only [List.map_cons, seqanRowAux, nwRowAux]
        rw [hhead]
        refine congrArg (List.cons _) ?_
        have h2 := ih (p1 :: prest) (min (p0 + (if a = b then 0 else 1)) (min (p1 + 1) (w + 1)))
        simpa only [List.map_cons] using h2

theorem seqanRow_neg (a : Nat) (t : List Nat) (prev : List Nat) :
    seqanRow a t (prev.map negOfNat) = (nwRow a t prev).map negOfNat := by
  cases prev with
  | nil => rfl
  | cons p ps =>
    simp only [List.map_cons, seqanRow, nwRow]
    have h1 : negOfNat p - 1 = negOfNat (p + 1) := by unfold negOfNat; push_cast; ring
    rw [h1]
    refine congrArg (List.cons _) ?_
    have h2 := seqanRowAux_neg a t (p :: ps) (p + 1)
    simpa only [List.map_cons] using h2

theorem seqanFold_neg (t : List Nat) :
    ∀ (q : List Nat) (row : List Nat),
      q.foldl (fun r a => seqanRow a t r) (row.map negOfNat)
        = (q.foldl (fun r a => nwRow a t r) row).map negOfNat := by
  intro q
  induction q with
  | nil => intro row; rfl
  | cons a q2 ih =>
    intro row
    simp only [List.foldl_cons]
    rw [seqanRow_neg a t row]
    exact ih (nwRow a t row)

theorem getLast_map_negOfNat :
    ∀ (l : List Nat), (l.map negOfNat).getLast? = l.getLast?.map negOfNat
  | [] => rfl
  | [x] => rfl
  | x :: y :: rest => by
    have h := getLast_map_negOfNat (y :: rest)
    simpa only [List.map_cons, List.getLast?_cons_cons] using h

theorem rowMax_map_negOfNat :
    ∀ (l : List Nat), rowMax (l.map negOfNat) = negOfNat (rowMin l)
  | [] => by simp [rowMax, rowMin, negOfNat]
  | [x] => rfl
  | x :: y :: rest => by
    have h := rowMax_map_negOfNat (y :: rest)
    simp only [List.map_cons, rowMax, rowMin] at h ⊢
    rw [h]
    unfold negOfNat
    push_cast
    omega

theorem seqanModeFirstRow_neg (modeCode : Nat) (t : List Nat) :
    seqanModeFirstRow modeCode t = (modeFirstRow modeCode t).map negOfNat := by
  unfold seqanModeFirstRow modeFirstRow
  by_cases h : modeCode = EDLIB_MODE_HW
  · simp only [h, if_pos trivial, if_true, List.map_replicate]
    norm_num [negOfNat]
  · simp only [if_neg h]
    rfl

theorem seqanModeScore_neg (modeCode : Nat) (q t : List Nat) :
    seqanModeScore modeCode q t = negOfNat (modeDist modeCode q t) := by
  unfold seqanModeScore modeDist
  rw [seqanModeFirstRow_neg, seqanFold_neg]
  by_cases h : modeCode = EDLIB_MODE_NW
  · simp only [if_pos h]
    rw [getLast_map_negOfNat]
    cases (q.foldl (fun r a => nwRow a t r) (modeFirstRow modeCode t)).getLast? with
    | none => simp [negOfNat]
    | some v => rfl
  · simp only [if_neg h]
    exact rowMax_map_negOfNat _

/-- Claim C7 as amended: for every query, target, mode and bound, the
reference (-t) path reports the negation of the mode's edit distance,
while the edlib path reports the distance itself when no bound is given
(negative k, the aligner's default) or the distance is within the bound,
and the no-result sentinel -1 otherwise.  The two reported scores are
therefore identical exactly when the distance is 0, or when a bound k at
least 0 is given, the distance exceeds it, and the distance is 1 (the
sentinel -1 then coincides with the negated distance); they are not the
identical score in general. -/
theorem C7_reference_negates_engine_score (modeCode : Nat) (q t : List Nat) (k : Int) :
    seqanModeScore modeCode q t = negOfNat (modeDist modeCode q t) ∧
    (seqanModeScore modeCode q t = edlibPrintedScore modeCode q t k ↔
      (modeDist modeCode q t = 0 ∨
        (0 ≤ k ∧ k < (modeDist modeCode q t : Int) ∧ modeDist modeCode q t = 1))) := by
  refine ⟨seqanModeScore_neg modeCode q t, ?_⟩
  rw [seqanModeScore_neg modeCode q t]
  unfold edlibPrintedScore edlibResult negOfNat
  by_cases hcond : 0 ≤ k ∧ k < (modeDist modeCode q t : Int)
  · rw [if_pos hcond]
    show -((modeDist modeCode q t : Nat) : Int) = -1 ↔ _
    omega
  · rw [if_neg hcond]
    show -((modeDist modeCode q t : Nat) : Int) = ((modeDist modeCode q t : Nat) : Int) ↔ _
    omega

/-- Claim C7 counterexample: at the aligner's defaults (NW mode, no bound,
kArg = -1) on query [0] and target [1], the reference path reports -1
while the edlib path reports 1 — the two paths do not compute the
identical score. -/
theorem C7_scores_differ :
    seqanModeScore EDLIB_MODE_NW [0] [1] = -1 ∧
    edlibPrintedScore EDLIB_MODE_NW [0] [1] (-1) = 1 ∧
    seqanModeScore EDLIB_MODE_NW [0] [1]
      ≠ edlibPrintedScore EDLIB_MODE_NW [0] [1] (-1) := by
  refine ⟨rfl, rfl, ?_⟩
  decide

end Aligner
